import Mathlib

/-!
Verification of the firewall rule store, DHCP daemon supervision and bridge
orchestration logic of `nova/network/freebsd_net.py`.

Rule texts, device names and hostnames are modelled as lists of characters
(`List Char`), so that Python's `str.strip` and `str.split(' ', 1)` have
direct executable counterparts.  External commands (`pfctl`, `kill`,
`dnsmasq`, `ifconfig`, `route`) are modelled by explicit traces of the
invocations each operation issues, with a boolean per call site standing for
"the external command succeeded" / "the external command raised
`ProcessExecutionError`".
-/

/-- The whitespace characters stripped by Python's `str.strip()`. -/
def isPySpace (c : Char) : Bool :=
  c = ' ' || c = '\t' || c = '\n' || c = '\r' || c = '\x0b' || c = '\x0c'

/-- Python `s.strip()`: drop leading and trailing whitespace. -/
def pyStrip (s : List Char) : List Char :=
  ((s.dropWhile isPySpace).reverse.dropWhile isPySpace).reverse

/-- Python `head, tail = s.split(' ', 1)`: `some (head, tail)` when `s`
contains a space character, `none` (the unpacking raises `ValueError`)
otherwise. -/
def splitOnce : List Char → Option (List Char × List Char)
  | [] => none
  | c :: rest =>
    if c = ' ' then some ([], rest)
    else
      match splitOnce rest with
      | some (h, t) => some (c :: h, t)
      | none => none

/-- The two sections of the rule store: the keys `"translation"` and
`"filtering"` of `FirewallManager.rules`. -/
inductive RuleSection
  | translation
  | filtering
deriving DecidableEq, Repr

/-- State of `FirewallManager` (`freebsd_net.py` lines 1075-1084): the
`apply_deferred` flag, the two ordered rule lists and the `is_dirty` flag.
The `anchor` string and the injected `execute` callable are not part of the
mutable rule-store state and are modelled at the call sites of `_apply`. -/
structure FirewallManager where
  apply_deferred : Bool
  translation : List (List Char)
  filtering : List (List Char)
  is_dirty : Bool
deriving DecidableEq, Repr

/-- The module-level store `firewall_manager = FirewallManager()`:
`apply_deferred = False`, both rule lists empty, `is_dirty = False`. -/
def firewall_manager : FirewallManager :=
  { apply_deferred := false, translation := [], filtering := [], is_dirty := false }

/-- `FirewallManager._get_rule_section` (lines 1086-1094):
`head, tail = rule.split(' ', 1)` (which raises when `rule` has no space,
modelled by `Except.error ()`), then classify by `head`. -/
def getRuleSection (rule : List Char) : Except Unit (Option RuleSection) :=
  match splitOnce rule with
  | none => Except.error ()
  | some (head, _tail) =>
    if head = "nat".toList ∨ head = "rdr".toList then
      Except.ok (some RuleSection.translation)
    else if head = "pass".toList ∨ head = "block".toList then
      Except.ok (some RuleSection.filtering)
    else
      Except.ok none

/-- `FirewallManager.add_rule` (lines 1096-1103): strip, classify, and append
to the section unless already present (setting `is_dirty`).  An exception
from `_get_rule_section` propagates before any mutation. -/
def FirewallManager.add_rule (fm : FirewallManager) (rule : List Char) :
    Except Unit FirewallManager :=
  let cleaned := pyStrip rule
  match getRuleSection cleaned with
  | Except.error e => Except.error e
  | Except.ok none => Except.ok fm
  | Except.ok (some RuleSection.translation) =>
    Except.ok (if cleaned ∈ fm.translation then fm
               else { fm with translation := fm.translation ++ [cleaned],
                              is_dirty := true })
  | Except.ok (some RuleSection.filtering) =>
    Except.ok (if cleaned ∈ fm.filtering then fm
               else { fm with filtering := fm.filtering ++ [cleaned],
                              is_dirty := true })

/-- `FirewallManager.remove_rule` (lines 1105-1114): strip, classify, then
`list.remove` (first occurrence) inside `try/except`: when the rule is
absent the `ValueError` from `remove` is swallowed and `is_dirty` is not
touched.  An exception from `_get_rule_section` propagates. -/
def FirewallManager.remove_rule (fm : FirewallManager) (rule : List Char) :
    Except Unit FirewallManager :=
  let cleaned := pyStrip rule
  match getRuleSection cleaned with
  | Except.error e => Except.error e
  | Except.ok none => Except.ok fm
  | Except.ok (some RuleSection.translation) =>
    Except.ok (if cleaned ∈ fm.translation then
                 { fm with translation := fm.translation.erase cleaned,
                           is_dirty := true }
               else fm)
  | Except.ok (some RuleSection.filtering) =>
    Except.ok (if cleaned ∈ fm.filtering then
                 { fm with filtering := fm.filtering.erase cleaned,
                           is_dirty := true }
               else fm)

/-- `FirewallManager.dirty` (lines 1123-1124). -/
def FirewallManager.dirty (fm : FirewallManager) : Bool :=
  fm.is_dirty

/-- The rule lines accumulated by `_apply` (lines 1136-1138):
`all_lines.extend(self.rules['translation'])` then
`all_lines.extend(self.rules['filtering'])`. -/
def commitLines (fm : FirewallManager) : List (List Char) :=
  fm.translation ++ fm.filtering

/-- The text `_apply` feeds to `pfctl` on stdin (lines 1136-1143):
`"\n".join(translation ++ filtering ++ ["\n"])`. -/
def commitText (fm : FirewallManager) : List Char :=
  List.intercalate ['\n'] (fm.translation ++ fm.filtering ++ [['\n']])

/-- Result of running a store operation: the state of the (mutated-in-place)
store afterwards, the texts of the `pfctl` commit invocations issued, and
whether the operation raised an exception to its caller. -/
structure RunResult where
  state : FirewallManager
  commits : List (List Char)
  raised : Bool
deriving DecidableEq, Repr

/-- `FirewallManager._apply` (lines 1134-1145), with `ok` the outcome of the
external `pfctl` execution: the commit text is assembled, `is_dirty` is set
to `False`, and then `self.execute` is invoked; when the execution raises
(`ok = false`) the exception propagates, but the assignment
`self.is_dirty = False` has already happened. -/
def FirewallManager.applyCommit (fm : FirewallManager) (ok : Bool) : RunResult :=
  { state := { fm with is_dirty := false },
    commits := [commitText fm],
    raised := !ok }

/-- `FirewallManager.apply` (lines 1126-1132): return immediately when
`apply_deferred`; call `_apply` when `dirty()`; otherwise skip. -/
def FirewallManager.apply (fm : FirewallManager) (ok : Bool) : RunResult :=
  if fm.apply_deferred then { state := fm, commits := [], raised := false }
  else if fm.dirty then fm.applyCommit ok
  else { state := fm, commits := [], raised := false }

/-- `FirewallManager.defer_apply_on` (lines 1116-1117). -/
def FirewallManager.defer_apply_on (fm : FirewallManager) : FirewallManager :=
  { fm with apply_deferred := true }

/-- `FirewallManager.defer_apply_off` (lines 1119-1121): clear the flag and
call `apply()`. -/
def FirewallManager.defer_apply_off (fm : FirewallManager) (ok : Bool) : RunResult :=
  FirewallManager.apply { fm with apply_deferred := false } ok

/-- A store call made by a client: `add_rule`, `remove_rule`, or `apply()`
(the boolean being the outcome of the external commit, if one is issued). -/
inductive FwOp
  | add (rule : List Char)
  | remove (rule : List Char)
  | applyOp (ok : Bool)
deriving DecidableEq, Repr

/-- One store call: a raised exception leaves the store as it was at the
point of the raise (for `add_rule`/`remove_rule` the raise happens inside
`_get_rule_section`, before any mutation). -/
def runOp (fm : FirewallManager) : FwOp → RunResult
  | FwOp.add r =>
    match fm.add_rule r with
    | Except.ok fm' => { state := fm', commits := [], raised := false }
    | Except.error _ => { state := fm, commits := [], raised := true }
  | FwOp.remove r =>
    match fm.remove_rule r with
    | Except.ok fm' => { state := fm', commits := [], raised := false }
    | Except.error _ => { state := fm, commits := [], raised := true }
  | FwOp.applyOp ok => fm.apply ok

/-- A sequence of store calls; a raised exception aborts the sequence. -/
def runOps (fm : FirewallManager) : List FwOp → RunResult
  | [] => { state := fm, commits := [], raised := false }
  | op :: rest =>
    let r := runOp fm op
    if r.raised then { state := r.state, commits := r.commits, raised := true }
    else
      let r2 := runOps r.state rest
      { state := r2.state, commits := r.commits ++ r2.commits, raised := r2.raised }

/-- `defer_apply_on()`, then a sequence of store calls, then
`defer_apply_off()` (lines 1116-1121). -/
def deferBracket (fm : FirewallManager) (ops : List FwOp) (ok : Bool) : RunResult :=
  let r := runOps fm.defer_apply_on ops
  if r.raised then r
  else
    let a := r.state.defer_apply_off ok
    { state := a.state, commits := r.commits ++ a.commits, raised := a.raised }

/-- The rules of each section. -/
def sectionRules (fm : FirewallManager) : RuleSection → List (List Char)
  | RuleSection.translation => fm.translation
  | RuleSection.filtering => fm.filtering

/-- Store invariant: each section is duplicate-free and holds only rules
that classify into it. -/
def StoreInv (fm : FirewallManager) : Prop :=
  fm.translation.Nodup ∧ fm.filtering.Nodup ∧
    (∀ r ∈ fm.translation,
      getRuleSection r = Except.ok (some RuleSection.translation)) ∧
    (∀ r ∈ fm.filtering,
      getRuleSection r = Except.ok (some RuleSection.filtering))

/-- The filtering rule of the spec's ordering scenario. -/
def c6PassRule : List Char := "pass in proto udp from any to any port 53".toList

/-- The translation rule of the spec's ordering scenario. -/
def c6RdrRule : List Char :=
  "rdr proto tcp from any to 1.2.3.4 port 80 -> 5.6.7.8 port 8080".toList

/-!  DHCP daemon supervision: `_add_dnsmasq_accept_rules` and `restart_dhcp`. -/

/-- The rule text
`"pass in on %s inet proto %s from any to any port %s" % (dev, proto, port)`
of `_add_dnsmasq_accept_rules` (lines 290-297). -/
def dnsmasqAcceptRule (dev proto port : List Char) : List Char :=
  "pass in on ".toList ++ dev ++ " inet proto ".toList ++ proto ++
    " from any to any port ".toList ++ port

/-- The store calls made by `_add_dnsmasq_accept_rules(dev)`: four
`add_rule` calls (`for port in [67, 53]: for proto in ['udp', 'tcp']`)
followed by `firewall_manager.apply()`, whose external commit outcome is
`commitOk`. -/
def dnsmasqAcceptOps (dev : List Char) (commitOk : Bool) : List FwOp :=
  [FwOp.add (dnsmasqAcceptRule dev "udp".toList "67".toList),
   FwOp.add (dnsmasqAcceptRule dev "tcp".toList "67".toList),
   FwOp.add (dnsmasqAcceptRule dev "udp".toList "53".toList),
   FwOp.add (dnsmasqAcceptRule dev "tcp".toList "53".toList),
   FwOp.applyOp commitOk]

/-- The external environment of one `restart_dhcp` call: the pid read from
the device's pid file (`_dnsmasq_pid_for`, `None` or an integer), whether
`is_pid_cmdline_correct(pid, conffile)` holds, and the outcomes of the
`kill -HUP`, `dnsmasq` spawn and `pfctl` commit executions. -/
structure DhcpEnv where
  pid : Option Nat
  cmdlineOk : Bool
  hupOk : Bool
  spawnOk : Bool
  commitOk : Bool
deriving DecidableEq, Repr

/-- Observable outcome of a `restart_dhcp` call: the firewall store state,
the pids to which a `kill -HUP` was issued, whether a new `dnsmasq` daemon
process was spawned (the spawn command was invoked), the `pfctl` commits
issued, and whether the call raised to its caller. -/
structure RestartResult where
  fm : FirewallManager
  hups : List Nat
  spawned : Bool
  commits : List (List Char)
  raised : Bool
deriving DecidableEq, Repr

/-- The tail of `restart_dhcp` (lines 413-455): spawn a new dnsmasq via
`_execute(*cmd)` (whose failure propagates), then
`_add_dnsmasq_accept_rules(dev)`. -/
def restartSpawnPath (env : DhcpEnv) (dev : List Char) (fm : FirewallManager)
    (hups : List Nat) (commits0 : List (List Char)) : RestartResult :=
  if env.spawnOk then
    let r := runOps fm (dnsmasqAcceptOps dev env.commitOk)
    { fm := r.state, hups := hups, spawned := true,
      commits := commits0 ++ r.commits, raised := r.raised }
  else
    { fm := fm, hups := hups, spawned := true, commits := commits0, raised := true }

/-- `restart_dhcp` (lines 382-455), config-file regeneration elided (it does
not touch the store or the process set).  `if pid:` is false for `None` and
for pid `0`.  When the pid's cmdline matches, the `try` block runs
`kill -HUP` and then `_add_dnsmasq_accept_rules`; any exception from either
(a failed HUP, or a failed `pfctl` commit inside `apply`) is caught and the
code falls through to the spawn path. -/
def restart_dhcp (env : DhcpEnv) (dev : List Char) (fm : FirewallManager) :
    RestartResult :=
  match env.pid with
  | some p =>
    if p ≠ 0 then
      if env.cmdlineOk then
        if env.hupOk then
          let r := runOps fm (dnsmasqAcceptOps dev env.commitOk)
          if r.raised then restartSpawnPath env dev r.state [p] r.commits
          else { fm := r.state, hups := [p], spawned := false,
                 commits := r.commits, raised := false }
        else restartSpawnPath env dev fm [p] []
      else restartSpawnPath env dev fm [] []
    else restartSpawnPath env dev fm [] []
  | none => restartSpawnPath env dev fm [] []

/-!  `LeaseConfigGenerator`: `_host_dhcp` and its hostname truncation. -/

/-- The fields of a fixed-ip record read by `_host_dhcp`: the virtual
interface's MAC address, the virtual interface id, the IP address and the
instance hostname. -/
structure FixedIP where
  vifAddress : List Char
  vifId : Nat
  address : List Char
  hostname : List Char
deriving DecidableEq, Repr

/-- The configuration values read by `_host_dhcp`. -/
structure DhcpConf where
  use_single_default_gateway : Bool
  dhcp_domain : List Char
deriving DecidableEq, Repr

/-- The hostname actually emitted by `_host_dhcp` (lines 517-521): hostnames
longer than 63 characters become `hostname[:2] + '-' + hostname[-60:]`. -/
def truncatedHostname (hostname : List Char) : List Char :=
  if hostname.length > 63 then
    hostname.take 2 ++ '-' :: hostname.drop (hostname.length - 60)
  else hostname

/-- `_host_dhcp_network` (lines 508-509): `'NW-%s' % vif_id`. -/
def hostDhcpNetwork (vifId : Nat) : List Char :=
  "NW-".toList ++ (toString vifId).toList

/-- `_host_dhcp` (lines 512-533): the dhcp-host line
`mac,hostname.domain,ip[,net:NW-vifid]`. -/
def hostDhcp (conf : DhcpConf) (fx : FixedIP) : List Char :=
  let hostname := truncatedHostname fx.hostname
  if conf.use_single_default_gateway then
    fx.vifAddress ++ ",".toList ++ hostname ++ ".".toList ++ conf.dhcp_domain ++
      ",".toList ++ fx.address ++ ",net:".toList ++ hostDhcpNetwork fx.vifId
  else
    fx.vifAddress ++ ",".toList ++ hostname ++ ".".toList ++ conf.dhcp_domain ++
      ",".toList ++ fx.address

/-!  Device orchestration: the OS state mutated by
`FreeBSDBridgeInterfaceDriver.ensure_bridge` (lines 871-953).

The OS is modelled as: the set of existing devices (`device_exists` queries
it), bridge membership pairs, per-device MAC assignments (`ifconfig <dev>
ether <mac>` writes them, `netifaces.ifaddresses(iface)[AF_LINK]` reads
them), the set of administratively-up devices, the per-device IPv4 address
lines (the token lists of `ifconfig <iface>` output lines; the code moves
exactly the lines whose first token is `inet`), and the routing table (one
entry per `netstat -nrW -f inet` row, with the row's destination, gateway,
flags string and interface fields; every row renders with more than 6
fields).  `route add` binds the new route to an interface chosen by the
kernel; that choice is abstracted as a `resolve` function passed in. -/

/-- One `netstat -nrW -f inet` row: `fields[0]`, `fields[1]`, `fields[2]`
and `fields[6]` as read by `ensure_bridge` (lines 929-935). -/
structure Route where
  dst : List Char
  gw : List Char
  flags : List Char
  iface : List Char
deriving DecidableEq, Repr

/-- The OS state visible to `ensure_bridge`. -/
structure OSState where
  devices : List (List Char)
  members : List (List Char × List Char)
  ethers : List (List Char × List Char)
  upDevs : List (List Char)
  addrs : List (List Char × List (List Char))
  routes : List Route
deriving DecidableEq, Repr

/-- The external commands `ensure_bridge` can issue. -/
inductive Cmd
  | bridgeCreate (b : List Char)
  | ifUp (d : List Char)
  | addMember (b i : List Char)
  | setEther (d m : List Char)
  | routeDelete (dst gw : List Char)
  | routeAdd (dst gw : List Char)
  | addrDelete (d : List Char) (a : List (List Char))
  | addrAdd (d : List Char) (a : List (List Char))
  | destroy (d : List Char)
deriving DecidableEq, Repr

/-- The destructive commands named by the idempotence property: route
deletion, address deletion and device destruction. -/
def Cmd.destructive : Cmd → Bool
  | Cmd.routeDelete _ _ => true
  | Cmd.addrDelete _ _ => true
  | Cmd.destroy _ => true
  | _ => false

/-- `netifaces.ifaddresses(dev)[AF_LINK][0]['addr']` (lines 916-917): the
MAC currently assigned to `dev` (empty when none recorded). -/
def getMac (os : OSState) (dev : List Char) : List Char :=
  match os.ethers.find? (fun p => p.1 = dev) with
  | some p => p.2
  | none => []

/-- Effect of `ifconfig dev ether mac`: update `dev`'s recorded MAC. -/
def setMacL (ethers : List (List Char × List Char)) (dev mac : List Char) :
    List (List Char × List Char) :=
  ethers.map (fun p => if p.1 = dev then (p.1, mac) else p)

/-- The `netstat` row filter of lines 930-933: `len(fields) > 6 and
fields[6] == interface and 'G' in fields[2]`. -/
def routeMatches (iface : List Char) (r : Route) : Bool :=
  r.iface = iface && r.flags.contains 'G'

/-- The `ifconfig interface` line filter of lines 937-939:
`fields and fields[0] == 'inet'`. -/
def inetLine (a : List (List Char)) : Bool :=
  a.head? = some "inet".toList

/-- Effect of `ifconfig dev up`. -/
def markUp (os : OSState) (dev : List Char) : OSState :=
  { os with upDevs := if dev ∈ os.upDevs then os.upDevs else os.upDevs ++ [dev] }

/-- `get_gateway_rules` (lines 1147-1150): returns the empty list (the
rules are expected to be configured in `pf.conf`). -/
def get_gateway_rules (_bridge : List Char) : List (List Char) := []

/-- `ensure_gateway_rules` (lines 1152-1154): `add_rule` for each rule of
`get_gateway_rules` — a fold over the empty list. -/
def ensure_gateway_rules (fm : FirewallManager) (bridge : List Char) :
    FirewallManager :=
  (get_gateway_rules bridge).foldl
    (fun acc r => match acc.add_rule r with
                  | Except.ok fm' => fm'
                  | Except.error _ => acc) fm

/-- The kernel's binding of a freshly added gateway route to an interface: a
`route add dst gw` inserted at line 945 resolves `gw` against an on-link
IPv4 address, so the new route references an interface currently holding an
IPv4 address line (the first such in the table), or no interface (`[]`)
when none exists.  This models the environment of `route -q add`, not code
of the repository. -/
def resolveIface (os : OSState) (_dst _gw : List Char) : List Char :=
  match os.addrs.find? (fun p => inetLine p.2) with
  | some p => p.1
  | none => []

/-- One `route -q add fields[0] fields[1]` step of the re-add loop of
`ensure_bridge` (lines 944-946): the kernel inserts a gateway route (`UGS`)
bound to the interface chosen by `resolveIface` from the OS state at add
time. -/
def readdRoute (acc : OSState × List Cmd) (r : Route) : OSState × List Cmd :=
  ({ acc.1 with routes := acc.1.routes ++
      [{ dst := r.dst, gw := r.gw, flags := ['U', 'G', 'S'],
         iface := resolveIface acc.1 r.dst r.gw }] },
   acc.2 ++ [Cmd.routeAdd r.dst r.gw])

/-- Lines 890-898: `if not device_exists(bridge)`: create the bridge and
bring it up (the `'File exists'` error of a concurrent creation is
swallowed). -/
def createBridgeStage (os0 : OSState) (bridge : List Char) : OSState × List Cmd :=
  if bridge ∈ os0.devices then (os0, ([] : List Cmd))
  else (markUp { os0 with devices := os0.devices ++ [bridge] } bridge,
        [Cmd.bridgeCreate bridge, Cmd.ifUp bridge])

/-- When `ifconfig bridge addm interface` (line 903) fails with an error
other than `'File exists'`: adding a bridge as its own member, or adding an
interface that does not exist.  An "already a member" complaint is the
benign `'File exists'` case that lines 905-907 swallow.  This models the
error behaviour of the external `ifconfig`, not code of the repository. -/
def addmError (os : OSState) (bridge iface : List Char) : Bool :=
  decide (iface = bridge ∨ iface ∉ os.devices)

/-- Lines 900-907: the state effect of a non-failing `ifconfig bridge addm
interface`; the `'File exists'` ("already a member") error is swallowed. -/
def addMemberStage (os : OSState) (bridge iface : List Char) : OSState :=
  if (bridge, iface) ∈ os.members then os
  else { os with members := os.members ++ [(bridge, iface)] }

/-- Lines 915-919: `ifconfig bridge ether <mac of interface>`. -/
def setEtherStage (os : OSState) (bridge iface : List Char) : OSState :=
  { os with ethers := setMacL os.ethers bridge (getMac os iface) }

/-- Lines 929-935: delete every gateway route referencing `interface`. -/
def routeDeleteStage (os : OSState) (iface : List Char) : OSState :=
  { os with routes := os.routes.filter (fun r => !routeMatches iface r) }

/-- Lines 936-943: move every IPv4 address line of `interface` onto the
bridge (delete from the interface, add to the bridge, in order). -/
def moveAddrsStage (os : OSState) (bridge iface : List Char) : OSState :=
  { os with addrs := os.addrs.filter (fun p => !(p.1 = iface && inetLine p.2)) ++
      ((os.addrs.filter (fun p => p.1 = iface && inetLine p.2)).map
        (fun p => p.2)).map (fun a => (bridge, a)) }

/-- Outcome of one `ensure_bridge` call: the OS state and firewall store
when the call returns or raises, the command trace issued up to that point,
and whether the call raised (`NovaException`) to its caller. -/
structure BridgeResult where
  os : OSState
  fm : FirewallManager
  cmds : List Cmd
  raised : Bool
deriving DecidableEq, Repr

/-- `FreeBSDBridgeInterfaceDriver.ensure_bridge(bridge, interface)` with the
default `gateway=True, filtering=True` and `CONF.fake_network` off
(lines 871-953).  When the `addm` of line 903 fails with an error other
than `'File exists'` (see `addmError`), lines 905-907 raise `NovaException`
and the call aborts with the state mutated so far.  Returns the resulting
OS and firewall-store states, the issued command trace and the raised
flag. -/
def ensure_bridge (os0 : OSState) (fm0 : FirewallManager)
    (bridge iface : List Char) : BridgeResult :=
  let created := createBridgeStage os0 bridge
  let os1 := created.1
  let cs1 := created.2
  -- `if interface:` (None and the empty string are falsy)
  if iface = [] then
    { os := os1, fm := ensure_gateway_rules fm0 bridge, cmds := cs1,
      raised := false }
  else
    if addmError os1 bridge iface then
      -- the `addm` was issued, errored without `'File exists'`, and
      -- lines 905-907 raise before any further command
      { os := os1, fm := fm0, cmds := cs1 ++ [Cmd.addMember bridge iface],
        raised := true }
    else
    let os2 := addMemberStage os1 bridge iface
    -- `ifconfig bridge ether <mac of interface>`
    let mac := getMac os2 iface
    let os3 := setEtherStage os2 bridge iface
    -- `ifconfig interface up`
    let os4 := markUp os3 iface
    -- gateway routes referencing `interface`: record, then delete each
    let oldRoutes := os4.routes.filter (routeMatches iface)
    let os5 := routeDeleteStage os4 iface
    let cs5 := oldRoutes.map (fun r => Cmd.routeDelete r.dst r.gw)
    -- IPv4 address lines of `interface`: delete from it, add to the bridge
    let movedLines := ((os5.addrs.filter (fun p => p.1 = iface && inetLine p.2)).map
      (fun p => p.2))
    let os6 := moveAddrsStage os5 bridge iface
    let cs6 := movedLines.flatMap
      (fun a => [Cmd.addrDelete iface a, Cmd.addrAdd bridge a])
    -- `route -q add fields[0] fields[1]` for each recorded route, in order
    let readded := oldRoutes.foldl readdRoute (os6, [])
    -- `filtering and gateway`: `firewall_manager.ensure_gateway_rules(bridge)`
    { os := readded.1, fm := ensure_gateway_rules fm0 bridge,
      cmds := cs1 ++ [Cmd.addMember bridge iface, Cmd.setEther bridge mac,
          Cmd.ifUp iface] ++ cs5 ++ cs6 ++ readded.2,
      raised := false }

/-!  Helper lemmas. -/

/-- `split(' ', 1)` finds nothing when the text holds no space. -/
theorem splitOnce_eq_none {s : List Char} (h : ' ' ∉ s) : splitOnce s = none := by
  induction s with
  | nil => rfl
  | cons c t ih =>
    have hc : ¬ c = ' ' := by
      intro e
      exact h (by simp [e])
    have ht : ' ' ∉ t := fun m => h (List.mem_cons_of_mem c m)
    simp [splitOnce, hc, ih ht]

/-- Evaluation of `add_rule` when the rule classifies into Translation. -/
theorem add_rule_eq_translation (fm : FirewallManager) (rule : List Char)
    (hsec : getRuleSection (pyStrip rule) = Except.ok (some RuleSection.translation)) :
    fm.add_rule rule = Except.ok
      (if pyStrip rule ∈ fm.translation then fm
       else { fm with translation := fm.translation ++ [pyStrip rule],
                      is_dirty := true }) := by
  simp only [FirewallManager.add_rule, hsec]

/-- Evaluation of `add_rule` when the rule classifies into Filtering. -/
theorem add_rule_eq_filtering (fm : FirewallManager) (rule : List Char)
    (hsec : getRuleSection (pyStrip rule) = Except.ok (some RuleSection.filtering)) :
    fm.add_rule rule = Except.ok
      (if pyStrip rule ∈ fm.filtering then fm
       else { fm with filtering := fm.filtering ++ [pyStrip rule],
                      is_dirty := true }) := by
  simp only [FirewallManager.add_rule, hsec]

/-- Evaluation of `add_rule` on an unrecognized rule: dropped, no raise. -/
theorem add_rule_eq_none (fm : FirewallManager) (rule : List Char)
    (hsec : getRuleSection (pyStrip rule) = Except.ok none) :
    fm.add_rule rule = Except.ok fm := by
  simp only [FirewallManager.add_rule, hsec]

/-- Evaluation of `remove_rule` when the rule classifies into Translation. -/
theorem remove_rule_eq_translation (fm : FirewallManager) (rule : List Char)
    (hsec : getRuleSection (pyStrip rule) = Except.ok (some RuleSection.translation)) :
    fm.remove_rule rule = Except.ok
      (if pyStrip rule ∈ fm.translation then
         { fm with translation := fm.translation.erase (pyStrip rule),
                   is_dirty := true }
       else fm) := by
  simp only [FirewallManager.remove_rule, hsec]

/-- Evaluation of `remove_rule` when the rule classifies into Filtering. -/
theorem remove_rule_eq_filtering (fm : FirewallManager) (rule : List Char)
    (hsec : getRuleSection (pyStrip rule) = Except.ok (some RuleSection.filtering)) :
    fm.remove_rule rule = Except.ok
      (if pyStrip rule ∈ fm.filtering then
         { fm with filtering := fm.filtering.erase (pyStrip rule),
                   is_dirty := true }
       else fm) := by
  simp only [FirewallManager.remove_rule, hsec]

/-- Evaluation of `remove_rule` on an unrecognized rule: dropped, no raise. -/
theorem remove_rule_eq_none (fm : FirewallManager) (rule : List Char)
    (hsec : getRuleSection (pyStrip rule) = Except.ok none) :
    fm.remove_rule rule = Except.ok fm := by
  simp only [FirewallManager.remove_rule, hsec]

/-!  Claim theorems. -/

/-- Claim C1.  `apply()` is a no-op on a clean store; but when the external
commit fails, the dirty flag does NOT remain set: `_apply` assigns
`self.is_dirty = False` before invoking `pfctl`, so after a failed commit
the flag is clear and a later `apply()` issues no retry.  Evaluated on the
store holding the single rule `pass all`. -/
theorem firewall_failed_commit_clears_dirty :
    (FirewallManager.apply firewall_manager true).commits = [] ∧
    (FirewallManager.apply firewall_manager true).state = firewall_manager ∧
    (runOps firewall_manager [FwOp.add ("pass all".toList), FwOp.applyOp false]).raised
      = true ∧
    (runOps firewall_manager
      [FwOp.add ("pass all".toList), FwOp.applyOp false]).state.is_dirty = false ∧
    (FirewallManager.apply
      (runOps firewall_manager
        [FwOp.add ("pass all".toList), FwOp.applyOp false]).state true).commits = [] := by
  decide

/-- Claim C4.  `apply()` issues zero external commit invocations when the
store is not dirty, and exactly one when the store is dirty and deferral is
off. -/
theorem apply_commit_count (fm : FirewallManager) (ok : Bool) :
    (fm.is_dirty = false → (fm.apply ok).commits = []) ∧
    (fm.apply_deferred = false → fm.is_dirty = true →
      (fm.apply ok).commits.length = 1) := by
  constructor
  · intro h
    simp [FirewallManager.apply, FirewallManager.dirty, FirewallManager.applyCommit, h]
  · intro hd h
    simp [FirewallManager.apply, FirewallManager.dirty, FirewallManager.applyCommit,
      hd, h]

/-- Witness for `apply_commit_count`. -/
theorem apply_commit_count_witness :
    (FirewallManager.apply firewall_manager true).commits = [] ∧
    (FirewallManager.apply
      { apply_deferred := false, translation := [],
        filtering := ["pass all".toList], is_dirty := true } true).commits.length = 1 :=
  ⟨(apply_commit_count firewall_manager true).1 rfl,
   (apply_commit_count
     { apply_deferred := false, translation := [],
       filtering := ["pass all".toList], is_dirty := true } true).2 rfl rfl⟩

/-- Claim C10.  A rule whose trimmed text holds no space (a single token)
makes both `add_rule` and `remove_rule` raise (the two-element unpacking of
`rule.split(' ', 1)` fails), before any mutation: the store is unchanged. -/
theorem single_token_rule_raises (fm : FirewallManager) (r : List Char)
    (h : ' ' ∉ pyStrip r) :
    fm.add_rule r = Except.error () ∧ fm.remove_rule r = Except.error () ∧
    runOp fm (FwOp.add r) = { state := fm, commits := [], raised := true } ∧
    runOp fm (FwOp.remove r) = { state := fm, commits := [], raised := true } := by
  have hs : splitOnce (pyStrip r) = none := splitOnce_eq_none h
  refine ⟨?_, ?_, ?_, ?_⟩ <;>
    simp [FirewallManager.add_rule, FirewallManager.remove_rule, getRuleSection,
      hs, runOp]

/-- Witness for `single_token_rule_raises`: the one-token rule `block`. -/
theorem single_token_rule_raises_witness :
    firewall_manager.add_rule ("block".toList) = Except.error () ∧
    firewall_manager.remove_rule ("block".toList) = Except.error () ∧
    runOp firewall_manager (FwOp.add ("block".toList))
      = { state := firewall_manager, commits := [], raised := true } ∧
    runOp firewall_manager (FwOp.remove ("block".toList))
      = { state := firewall_manager, commits := [], raised := true } :=
  single_token_rule_raises firewall_manager ("block".toList) (by decide)

/-- Claim C3 counterexample.  The claim says a rule whose first
whitespace-delimited token is `pass` is stored in the Filtering section and
that no input raises; but `add_rule` on the one-token rule `pass` raises a
`ValueError` (modelled by `Except.error`) instead of storing it. -/
theorem add_rule_single_pass_raises :
    firewall_manager.add_rule ("pass".toList) = Except.error () := by
  rfl

/-- Claim C3 (amended): for every rule whose trimmed text contains a space,
with `head` the text before the first space: `nat`/`rdr` rules land in the
Translation section (Filtering untouched), `pass`/`block` rules land in the
Filtering section (Translation untouched), and any other head leaves the
store unchanged without raising. -/
theorem add_rule_classification (fm : FirewallManager) (rule head tail : List Char)
    (h : splitOnce (pyStrip rule) = some (head, tail)) :
    ∃ fm', fm.add_rule rule = Except.ok fm' ∧
      ((head = "nat".toList ∨ head = "rdr".toList) →
        pyStrip rule ∈ fm'.translation ∧ fm'.filtering = fm.filtering) ∧
      ((head = "pass".toList ∨ head = "block".toList) →
        pyStrip rule ∈ fm'.filtering ∧ fm'.translation = fm.translation) ∧
      (¬(head = "nat".toList ∨ head = "rdr".toList ∨ head = "pass".toList ∨
          head = "block".toList) → fm' = fm) := by
  by_cases h1 : head = "nat".toList ∨ head = "rdr".toList
  · have hsec : getRuleSection (pyStrip rule)
        = Except.ok (some RuleSection.translation) := by
      unfold getRuleSection
      rw [h]
      show (if head = "nat".toList ∨ head = "rdr".toList then _ else _) = _
      rw [if_pos h1]
    rw [add_rule_eq_translation fm rule hsec]
    refine ⟨_, rfl, ?_, ?_, ?_⟩
    · intro _
      constructor
      · split
        · assumption
        · simp
      · split <;> rfl
    · intro h2
      exfalso
      rcases h1 with e1 | e1 <;> rcases h2 with e2 | e2 <;>
        (rw [e1] at e2; exact absurd e2 (by decide))
    · intro h3
      exact absurd (Or.elim h1 Or.inl (fun e => Or.inr (Or.inl e))) h3
  · by_cases h2 : head = "pass".toList ∨ head = "block".toList
    · have hsec : getRuleSection (pyStrip rule)
          = Except.ok (some RuleSection.filtering) := by
        unfold getRuleSection
        rw [h]
        show (if head = "nat".toList ∨ head = "rdr".toList then _ else _) = _
        rw [if_neg h1, if_pos h2]
      rw [add_rule_eq_filtering fm rule hsec]
      refine ⟨_, rfl, ?_, ?_, ?_⟩
      · intro h1'
        exact absurd h1' h1
      · intro _
        constructor
        · split
          · assumption
          · simp
        · split <;> rfl
      · intro h3
        refine absurd ?_ h3
        rcases h2 with e | e
        · exact Or.inr (Or.inr (Or.inl e))
        · exact Or.inr (Or.inr (Or.inr e))
    · have hsec : getRuleSection (pyStrip rule) = Except.ok none := by
        unfold getRuleSection
        rw [h]
        show (if head = "nat".toList ∨ head = "rdr".toList then _ else _) = _
        rw [if_neg h1, if_neg h2]
      rw [add_rule_eq_none fm rule hsec]
      refine ⟨fm, rfl, ?_, ?_, fun _ => rfl⟩
      · intro h1'
        exact absurd h1' h1
      · intro h2'
        exact absurd h2' h2

/-- Witness for `add_rule_classification`: the rule `rdr x y`. -/
theorem add_rule_classification_witness :
    ∃ fm', firewall_manager.add_rule ("rdr x y".toList) = Except.ok fm' ∧
      (("rdr".toList = "nat".toList ∨ "rdr".toList = "rdr".toList) →
        pyStrip ("rdr x y".toList) ∈ fm'.translation ∧
          fm'.filtering = firewall_manager.filtering) ∧
      (("rdr".toList = "pass".toList ∨ "rdr".toList = "block".toList) →
        pyStrip ("rdr x y".toList) ∈ fm'.filtering ∧
          fm'.translation = firewall_manager.translation) ∧
      (¬("rdr".toList = "nat".toList ∨ "rdr".toList = "rdr".toList ∨
          "rdr".toList = "pass".toList ∨ "rdr".toList = "block".toList) →
        fm' = firewall_manager) :=
  add_rule_classification firewall_manager ("rdr x y".toList) ("rdr".toList)
    ("x y".toList) (by decide)

/-- Claim C7.  Hostnames longer than 63 characters are emitted as exactly 63
characters: the first 2 of the original, a `-` separator, and the last 60;
shorter hostnames are emitted unchanged; and the emitted dhcp-host line
contains exactly that hostname. -/
theorem host_dhcp_truncation (h : List Char) :
    (63 < h.length →
      (truncatedHostname h).length = 63 ∧
      truncatedHostname h = h.take 2 ++ '-' :: h.drop (h.length - 60)) ∧
    (h.length ≤ 63 → truncatedHostname h = h) ∧
    (∀ conf fx, List.IsInfix (truncatedHostname fx.hostname) (hostDhcp conf fx)) := by
  refine ⟨?_, ?_, ?_⟩
  · intro hl
    unfold truncatedHostname
    rw [if_pos (by omega)]
    refine ⟨?_, rfl⟩
    simp only [List.length_append, List.length_take, List.length_cons,
      List.length_drop]
    omega
  · intro hl
    unfold truncatedHostname
    rw [if_neg (by omega)]
  · intro conf fx
    unfold hostDhcp
    split
    · exact ⟨fx.vifAddress ++ ",".toList,
        ".".toList ++ conf.dhcp_domain ++ ",".toList ++ fx.address ++
          ",net:".toList ++ hostDhcpNetwork fx.vifId, by simp⟩
    · exact ⟨fx.vifAddress ++ ",".toList,
        ".".toList ++ conf.dhcp_domain ++ ",".toList ++ fx.address, by simp⟩

/-- Witness for `host_dhcp_truncation`: a 70-character hostname. -/
theorem host_dhcp_truncation_witness :
    (truncatedHostname (List.replicate 70 'a')).length = 63 ∧
    truncatedHostname ("ab".toList) = "ab".toList :=
  ⟨((host_dhcp_truncation (List.replicate 70 'a')).1 (by decide)).1,
   (host_dhcp_truncation ("ab".toList)).2.1 (by decide)⟩

/-- Claim C6.  The committed text lists the Translation section before the
Filtering section; in the spec's scenario (add the `pass` rule, then the
`rdr` rule, then `apply()`), the single commit's text is the `rdr` line
followed by the `pass` line. -/
theorem translation_precedes_filtering :
    (∀ fm : FirewallManager,
      commitText fm = List.intercalate ['\n'] (commitLines fm ++ [['\n']])) ∧
    (runOps firewall_manager
      [FwOp.add c6PassRule, FwOp.add c6RdrRule, FwOp.applyOp true]).state.translation
      = [c6RdrRule] ∧
    (runOps firewall_manager
      [FwOp.add c6PassRule, FwOp.add c6RdrRule, FwOp.applyOp true]).state.filtering
      = [c6PassRule] ∧
    (runOps firewall_manager
      [FwOp.add c6PassRule, FwOp.add c6RdrRule, FwOp.applyOp true]).commits
      = [c6RdrRule ++ '\n' :: (c6PassRule ++ ['\n', '\n'])] := by
  refine ⟨fun fm => by simp [commitText, commitLines, List.append_assoc], ?_, ?_, ?_⟩ <;>
    decide

/-- Evaluation of `add_rule` when `_get_rule_section` raises. -/
theorem add_rule_eq_error (fm : FirewallManager) (rule : List Char) (e : Unit)
    (hsec : getRuleSection (pyStrip rule) = Except.error e) :
    fm.add_rule rule = Except.error e := by
  simp only [FirewallManager.add_rule, hsec]

/-- Evaluation of `remove_rule` when `_get_rule_section` raises. -/
theorem remove_rule_eq_error (fm : FirewallManager) (rule : List Char) (e : Unit)
    (hsec : getRuleSection (pyStrip rule) = Except.error e) :
    fm.remove_rule rule = Except.error e := by
  simp only [FirewallManager.remove_rule, hsec]

/-- The possible outcomes of a successful `add_rule`. -/
theorem add_rule_ok_shape (fm : FirewallManager) (r : List Char)
    (fm' : FirewallManager) (h : fm.add_rule r = Except.ok fm') :
    fm' = fm ∨
    fm' = { fm with translation := fm.translation ++ [pyStrip r], is_dirty := true } ∨
    fm' = { fm with filtering := fm.filtering ++ [pyStrip r], is_dirty := true } := by
  rcases hsec : getRuleSection (pyStrip r) with e | v
  · rw [add_rule_eq_error fm r e hsec] at h
    exact absurd h (by simp)
  · rcases v with _ | sec
    · rw [add_rule_eq_none fm r hsec] at h
      injection h with h2
      exact Or.inl h2.symm
    · rcases sec with _ | _
      · rw [add_rule_eq_translation fm r hsec] at h
        injection h with h2
        rw [← h2]
        split
        · exact Or.inl rfl
        · exact Or.inr (Or.inl rfl)
      · rw [add_rule_eq_filtering fm r hsec] at h
        injection h with h2
        rw [← h2]
        split
        · exact Or.inl rfl
        · exact Or.inr (Or.inr rfl)

/-- The possible outcomes of a successful `remove_rule`. -/
theorem remove_rule_ok_shape (fm : FirewallManager) (r : List Char)
    (fm' : FirewallManager) (h : fm.remove_rule r = Except.ok fm') :
    fm' = fm ∨
    fm' = { fm with translation := fm.translation.erase (pyStrip r),
                    is_dirty := true } ∨
    fm' = { fm with filtering := fm.filtering.erase (pyStrip r),
                    is_dirty := true } := by
  rcases hsec : getRuleSection (pyStrip r) with e | v
  · rw [remove_rule_eq_error fm r e hsec] at h
    exact absurd h (by simp)
  · rcases v with _ | sec
    · rw [remove_rule_eq_none fm r hsec] at h
      injection h with h2
      exact Or.inl h2.symm
    · rcases sec with _ | _
      · rw [remove_rule_eq_translation fm r hsec] at h
        injection h with h2
        rw [← h2]
        split
        · exact Or.inr (Or.inl rfl)
        · exact Or.inl rfl
      · rw [remove_rule_eq_filtering fm r hsec] at h
        injection h with h2
        rw [← h2]
        split
        · exact Or.inr (Or.inr rfl)
        · exact Or.inl rfl

/-- `add_rule` never touches `apply_deferred`. -/
theorem add_rule_deferred (fm : FirewallManager) (r : List Char)
    (fm' : FirewallManager) (h : fm.add_rule r = Except.ok fm') :
    fm'.apply_deferred = fm.apply_deferred := by
  rcases add_rule_ok_shape fm r fm' h with e | e | e <;> rw [e]

/-- `remove_rule` never touches `apply_deferred`. -/
theorem remove_rule_deferred (fm : FirewallManager) (r : List Char)
    (fm' : FirewallManager) (h : fm.remove_rule r = Except.ok fm') :
    fm'.apply_deferred = fm.apply_deferred := by
  rcases remove_rule_ok_shape fm r fm' h with e | e | e <;> rw [e]

/-- While deferral is on, a single store call issues no commit and leaves
deferral on. -/
theorem runOp_deferred (fm : FirewallManager) (op : FwOp)
    (h : fm.apply_deferred = true) :
    (runOp fm op).commits = [] ∧ (runOp fm op).state.apply_deferred = true := by
  cases op with
  | add r =>
    cases hadd : fm.add_rule r with
    | ok fm' =>
      simp only [runOp, hadd]
      exact ⟨trivial, (add_rule_deferred fm r fm' hadd).trans h⟩
    | error e =>
      simp only [runOp, hadd]
      exact ⟨trivial, h⟩
  | remove r =>
    cases hrem : fm.remove_rule r with
    | ok fm' =>
      simp only [runOp, hrem]
      exact ⟨trivial, (remove_rule_deferred fm r fm' hrem).trans h⟩
    | error e =>
      simp only [runOp, hrem]
      exact ⟨trivial, h⟩
  | applyOp ok =>
    simp [runOp, FirewallManager.apply, h]

/-- While deferral is on, a sequence of store calls issues no commit and
leaves deferral on. -/
theorem runOps_deferred (ops : List FwOp) (fm : FirewallManager)
    (h : fm.apply_deferred = true) :
    (runOps fm ops).commits = [] ∧ (runOps fm ops).state.apply_deferred = true := by
  induction ops generalizing fm with
  | nil => exact ⟨rfl, h⟩
  | cons op rest ih =>
    obtain ⟨hc, hd⟩ := runOp_deferred fm op h
    unfold runOps
    by_cases hr : (runOp fm op).raised
    · rw [if_pos hr]
      exact ⟨hc, hd⟩
    · rw [if_neg hr]
      obtain ⟨hc2, hd2⟩ := ih (runOp fm op).state hd
      exact ⟨by simp [hc, hc2], hd2⟩

/-- Claim C5 counterexample.  A deferred bracket whose calls have no net
effect (here: one `add_rule` of the unrecognized rule `foo bar`, starting
from the clean initial store) issues zero external commits, not exactly
one: `defer_apply_off`'s `apply()` skips because the store is not dirty. -/
theorem defer_bracket_zero_commits_cex :
    (deferBracket firewall_manager [FwOp.add ("foo bar".toList)] true).commits.length
      ≠ 1 := by
  decide

/-- Claim C5 (amended).  Provided no bracketed call raises: while deferral
is on no external commit is issued, and the whole bracket issues exactly one
commit when the store is dirty as `defer_apply_off` runs — its text being
the full rule set of the net final state — and zero commits otherwise. -/
theorem defer_bracket_commits (fm : FirewallManager) (ops : List FwOp) (ok : Bool)
    (h : (runOps fm.defer_apply_on ops).raised = false) :
    (runOps fm.defer_apply_on ops).commits = [] ∧
    (deferBracket fm ops ok).commits =
      (if (runOps fm.defer_apply_on ops).state.is_dirty then
         [commitText (runOps fm.defer_apply_on ops).state]
       else []) ∧
    (deferBracket fm ops ok).state.translation
      = (runOps fm.defer_apply_on ops).state.translation ∧
    (deferBracket fm ops ok).state.filtering
      = (runOps fm.defer_apply_on ops).state.filtering := by
  obtain ⟨hc, _⟩ := runOps_deferred ops fm.defer_apply_on rfl
  refine ⟨hc, ?_, ?_, ?_⟩ <;>
    by_cases hdirty : (runOps fm.defer_apply_on ops).state.is_dirty = true <;>
      simp [deferBracket, FirewallManager.defer_apply_off, FirewallManager.apply,
        FirewallManager.dirty, FirewallManager.applyCommit, commitText, h, hc,
        hdirty]

/-- Witness for `defer_bracket_commits`: a bracket holding one effective
`add_rule`. -/
theorem defer_bracket_commits_witness :
    (runOps firewall_manager.defer_apply_on [FwOp.add ("pass all".toList)]).raised
      = false ∧
    ((runOps firewall_manager.defer_apply_on [FwOp.add ("pass all".toList)]).commits
      = [] ∧
    (deferBracket firewall_manager [FwOp.add ("pass all".toList)] true).commits =
      (if (runOps firewall_manager.defer_apply_on
            [FwOp.add ("pass all".toList)]).state.is_dirty then
         [commitText (runOps firewall_manager.defer_apply_on
            [FwOp.add ("pass all".toList)]).state]
       else []) ∧
    (deferBracket firewall_manager [FwOp.add ("pass all".toList)] true).state.translation
      = (runOps firewall_manager.defer_apply_on
          [FwOp.add ("pass all".toList)]).state.translation ∧
    (deferBracket firewall_manager [FwOp.add ("pass all".toList)] true).state.filtering
      = (runOps firewall_manager.defer_apply_on
          [FwOp.add ("pass all".toList)]).state.filtering) :=
  ⟨by decide,
   defer_bracket_commits firewall_manager [FwOp.add ("pass all".toList)] true
     (by decide)⟩

/-- Unfolding of `runOps` over a successful `add_rule` call. -/
theorem runOps_cons_add_ok (fm : FirewallManager) (r : List Char)
    (fm' : FirewallManager) (ops : List FwOp) (hadd : fm.add_rule r = Except.ok fm') :
    runOps fm (FwOp.add r :: ops) = runOps fm' ops := by
  simp only [runOps, runOp, hadd]
  rfl

/-- Unfolding of `runOps` over a raising `add_rule` call. -/
theorem runOps_cons_add_error (fm : FirewallManager) (r : List Char) (e : Unit)
    (ops : List FwOp) (hadd : fm.add_rule r = Except.error e) :
    runOps fm (FwOp.add r :: ops)
      = { state := fm, commits := [], raised := true } := by
  simp only [runOps, runOp, hadd]
  rfl

/-- The initial store satisfies the store invariant. -/
theorem storeInv_initial : StoreInv firewall_manager := by
  refine ⟨List.nodup_nil, List.nodup_nil, ?_, ?_⟩ <;> intro r hr <;>
    simp [firewall_manager] at hr

/-- `add_rule` preserves the store invariant. -/
theorem storeInv_add (fm : FirewallManager) (r : List Char) (fm' : FirewallManager)
    (hInv : StoreInv fm) (h : fm.add_rule r = Except.ok fm') : StoreInv fm' := by
  obtain ⟨hnt, hnf, hct, hcf⟩ := hInv
  rcases hsec : getRuleSection (pyStrip r) with e | v
  · rw [add_rule_eq_error fm r e hsec] at h
    exact absurd h (by simp)
  · rcases v with _ | sec
    · rw [add_rule_eq_none fm r hsec] at h
      injection h with h2
      rw [← h2]
      exact ⟨hnt, hnf, hct, hcf⟩
    · rcases sec with _ | _
      · rw [add_rule_eq_translation fm r hsec] at h
        injection h with h2
        rw [← h2]
        split_ifs with hmem
        · exact ⟨hnt, hnf, hct, hcf⟩
        · refine ⟨?_, hnf, ?_, hcf⟩
          · simp [List.nodup_append, hnt, hmem]
          · intro x hx
            rcases List.mem_append.1 hx with hx | hx
            · exact hct x hx
            · rw [List.mem_singleton.1 hx]
              exact hsec
      · rw [add_rule_eq_filtering fm r hsec] at h
        injection h with h2
        rw [← h2]
        split_ifs with hmem
        · exact ⟨hnt, hnf, hct, hcf⟩
        · refine ⟨hnt, ?_, hct, ?_⟩
          · simp [List.nodup_append, hnf, hmem]
          · intro x hx
            rcases List.mem_append.1 hx with hx | hx
            · exact hcf x hx
            · rw [List.mem_singleton.1 hx]
              exact hsec

/-- `remove_rule` preserves the store invariant. -/
theorem storeInv_remove (fm : FirewallManager) (r : List Char)
    (fm' : FirewallManager) (hInv : StoreInv fm)
    (h : fm.remove_rule r = Except.ok fm') : StoreInv fm' := by
  obtain ⟨hnt, hnf, hct, hcf⟩ := hInv
  rcases remove_rule_ok_shape fm r fm' h with e | e | e <;> rw [e]
  · exact ⟨hnt, hnf, hct, hcf⟩
  · exact ⟨hnt.erase _, hnf,
      fun x hx => hct x (List.mem_of_mem_erase hx), hcf⟩
  · exact ⟨hnt, hnf.erase _, hct,
      fun x hx => hcf x (List.mem_of_mem_erase hx)⟩

/-- `apply()` only touches the dirty flag, never the rule lists. -/
theorem apply_rules_unchanged (fm : FirewallManager) (ok : Bool) :
    (fm.apply ok).state.translation = fm.translation ∧
    (fm.apply ok).state.filtering = fm.filtering := by
  unfold FirewallManager.apply FirewallManager.applyCommit FirewallManager.dirty
  split_ifs <;> exact ⟨rfl, rfl⟩

/-- Any single store call preserves the store invariant. -/
theorem runOp_inv (fm : FirewallManager) (op : FwOp) (hInv : StoreInv fm) :
    StoreInv (runOp fm op).state := by
  cases op with
  | add r =>
    cases hadd : fm.add_rule r with
    | ok fm' =>
      simp only [runOp, hadd]
      exact storeInv_add fm r fm' hInv hadd
    | error e =>
      simp only [runOp, hadd]
      exact hInv
  | remove r =>
    cases hrem : fm.remove_rule r with
    | ok fm' =>
      simp only [runOp, hrem]
      exact storeInv_remove fm r fm' hInv hrem
    | error e =>
      simp only [runOp, hrem]
      exact hInv
  | applyOp ok =>
    obtain ⟨e1, e2⟩ := apply_rules_unchanged fm ok
    refine ⟨?_, ?_, ?_, ?_⟩
    · rw [show (runOp fm (FwOp.applyOp ok)).state = (fm.apply ok).state from rfl, e1]
      exact hInv.1
    · rw [show (runOp fm (FwOp.applyOp ok)).state = (fm.apply ok).state from rfl, e2]
      exact hInv.2.1
    · rw [show (runOp fm (FwOp.applyOp ok)).state = (fm.apply ok).state from rfl, e1]
      exact hInv.2.2.1
    · rw [show (runOp fm (FwOp.applyOp ok)).state = (fm.apply ok).state from rfl, e2]
      exact hInv.2.2.2

/-- Any sequence of store calls preserves the store invariant. -/
theorem runOps_inv (ops : List FwOp) (fm : FirewallManager) (hInv : StoreInv fm) :
    StoreInv (runOps fm ops).state := by
  induction ops generalizing fm with
  | nil => exact hInv
  | cons op rest ih =>
    unfold runOps
    by_cases hr : (runOp fm op).raised
    · rw [if_pos hr]
      exact runOp_inv fm op hInv
    · rw [if_neg hr]
      exact ih (runOp fm op).state (runOp_inv fm op hInv)

/-- A successful `add_rule` puts the cleaned rule in its section. -/
theorem add_rule_sec_mem (fm : FirewallManager) (r : List Char)
    (fm' : FirewallManager) (sec : RuleSection)
    (h : fm.add_rule r = Except.ok fm')
    (hsec : getRuleSection (pyStrip r) = Except.ok (some sec)) :
    pyStrip r ∈ sectionRules fm' sec := by
  cases sec with
  | translation =>
    rw [add_rule_eq_translation fm r hsec] at h
    injection h with h2
    simp only [sectionRules]
    rw [← h2]
    split_ifs with hmem
    · exact hmem
    · simp
  | filtering =>
    rw [add_rule_eq_filtering fm r hsec] at h
    injection h with h2
    simp only [sectionRules]
    rw [← h2]
    split_ifs with hmem
    · exact hmem
    · simp

/-- `add_rule` never drops a rule already in a section. -/
theorem add_rule_mem_mono (fm : FirewallManager) (r : List Char)
    (fm' : FirewallManager) (h : fm.add_rule r = Except.ok fm')
    (sec : RuleSection) (x : List Char) (hx : x ∈ sectionRules fm sec) :
    x ∈ sectionRules fm' sec := by
  rcases add_rule_ok_shape fm r fm' h with e | e | e <;> rw [e] <;>
    cases sec <;> simp only [sectionRules] at hx ⊢ <;>
      first
        | exact hx
        | exact List.mem_append_left _ hx

/-- A run of `add_rule` calls never drops a rule already in a section. -/
theorem runAdds_mem_mono (rs : List (List Char)) (fm : FirewallManager)
    (sec : RuleSection) (x : List Char) (hx : x ∈ sectionRules fm sec) :
    x ∈ sectionRules (runOps fm (rs.map FwOp.add)).state sec := by
  induction rs generalizing fm with
  | nil => exact hx
  | cons r rest ih =>
    rw [List.map_cons]
    cases hadd : fm.add_rule r with
    | ok fm' =>
      rw [runOps_cons_add_ok fm r fm' (rest.map FwOp.add) hadd]
      exact ih fm' (add_rule_mem_mono fm r fm' hadd sec x hx)
    | error e =>
      rw [runOps_cons_add_error fm r e (rest.map FwOp.add) hadd]
      exact hx

/-- After a non-raising run of `add_rule` calls one of which (after
trimming) is `R`, `R` is in its section. -/
theorem runAdds_mem (rs : List (List Char)) (fm : FirewallManager) (R : List Char)
    (sec : RuleSection) (hsec : getRuleSection R = Except.ok (some sec))
    (hmem : R ∈ rs.map pyStrip)
    (hok : (runOps fm (rs.map FwOp.add)).raised = false) :
    R ∈ sectionRules (runOps fm (rs.map FwOp.add)).state sec := by
  induction rs generalizing fm with
  | nil => simp at hmem
  | cons r rest ih =>
    rw [List.map_cons] at hok ⊢
    cases hadd : fm.add_rule r with
    | error e =>
      rw [runOps_cons_add_error fm r e (rest.map FwOp.add) hadd] at hok
      simp at hok
    | ok fm' =>
      rw [runOps_cons_add_ok fm r fm' (rest.map FwOp.add) hadd] at hok ⊢
      simp only [List.map_cons, List.mem_cons] at hmem
      rcases hmem with e | hmem
      · rw [e]
        exact runAdds_mem_mono rest fm' sec (pyStrip r)
          (add_rule_sec_mem fm r fm' sec hadd (by rw [← e]; exact hsec))
      · exact ih fm' hmem hok

/-- A duplicate-free list counts every element at most once. -/
theorem count_le_one_of_nodup (l : List (List Char)) (hl : l.Nodup)
    (a : List Char) : l.count a ≤ 1 := by
  induction l with
  | nil => simp
  | cons x t ih =>
    rcases List.nodup_cons.1 hl with ⟨hx, ht⟩
    rw [List.count_cons]
    by_cases h : x = a
    · subst h
      rw [List.count_eq_zero.2 hx]
      simp
    · have hb : (x == a) = false := by
        rw [beq_eq_false_iff_ne]
        exact h
      rw [hb]
      simpa using ih ht

/-- A duplicate-free list counts each of its members exactly once. -/
theorem count_eq_one_of_mem_nodup (l : List (List Char)) (hl : l.Nodup)
    (a : List Char) (h : a ∈ l) : l.count a = 1 := by
  have h1 := count_le_one_of_nodup l hl a
  have h2 : 0 < l.count a := List.count_pos_iff.2 h
  omega

/-- Claim C2 counterexample.  For the unrecognized rule text `foo bar`,
added twice from the clean initial store, the committed rule lines contain
it zero times, not exactly once: unrecognized rules are dropped, never
stored. -/
theorem added_twice_unrecognized_cex :
    (commitLines (runOps firewall_manager
        [FwOp.add ("foo bar".toList), FwOp.add ("foo bar".toList)]).state).count
      ("foo bar".toList) ≠ 1 := by
  decide

/-- Claim C2 (amended).  For every non-raising sequence of `add_rule` calls
two or more of which trim to `R`, each section contains `R` at most once;
and when `R` is recognized (classifies into a section), the rule lines sent
to the external commit contain `R` exactly once. -/
theorem added_twice_committed_once (rs : List (List Char)) (R : List Char)
    (sec : RuleSection) (hsec : getRuleSection R = Except.ok (some sec))
    (hR : 2 ≤ (rs.map pyStrip).count R)
    (hok : (runOps firewall_manager (rs.map FwOp.add)).raised = false) :
    (runOps firewall_manager (rs.map FwOp.add)).state.translation.count R ≤ 1 ∧
    (runOps firewall_manager (rs.map FwOp.add)).state.filtering.count R ≤ 1 ∧
    (commitLines (runOps firewall_manager (rs.map FwOp.add)).state).count R = 1 := by
  have hInv := runOps_inv (rs.map FwOp.add) firewall_manager storeInv_initial
  have hmem : R ∈ rs.map pyStrip := by
    have hpos : 0 < (rs.map pyStrip).count R := by omega
    exact List.count_pos_iff.1 hpos
  have hsecmem := runAdds_mem rs firewall_manager R sec hsec hmem hok
  obtain ⟨hnt, hnf, hct, hcf⟩ := hInv
  refine ⟨count_le_one_of_nodup _ hnt R, count_le_one_of_nodup _ hnf R, ?_⟩
  rw [commitLines, List.count_append]
  cases sec with
  | translation =>
    simp only [sectionRules] at hsecmem
    have h1 := count_eq_one_of_mem_nodup _ hnt R hsecmem
    have h0 : (runOps firewall_manager (rs.map FwOp.add)).state.filtering.count R
        = 0 := by
      rw [List.count_eq_zero]
      intro hmem2
      have hco := hcf R hmem2
      rw [hsec] at hco
      simp at hco
    rw [h1, h0]
  | filtering =>
    simp only [sectionRules] at hsecmem
    have h1 := count_eq_one_of_mem_nodup _ hnf R hsecmem
    have h0 : (runOps firewall_manager (rs.map FwOp.add)).state.translation.count R
        = 0 := by
      rw [List.count_eq_zero]
      intro hmem2
      have hco := hct R hmem2
      rw [hsec] at hco
      simp at hco
    rw [h1, h0]

/-- Witness for `added_twice_committed_once`: the rule `pass all` added
twice. -/
theorem added_twice_committed_once_witness :
    2 ≤ ((["pass all".toList, "pass all".toList]).map pyStrip).count
      ("pass all".toList) ∧
    ((runOps firewall_manager
        ((["pass all".toList, "pass all".toList]).map FwOp.add)).state.translation.count
        ("pass all".toList) ≤ 1 ∧
     (runOps firewall_manager
        ((["pass all".toList, "pass all".toList]).map FwOp.add)).state.filtering.count
        ("pass all".toList) ≤ 1 ∧
     (commitLines (runOps firewall_manager
        ((["pass all".toList, "pass all".toList]).map FwOp.add)).state).count
        ("pass all".toList) = 1) :=
  ⟨by decide,
   added_twice_committed_once ["pass all".toList, "pass all".toList]
     ("pass all".toList) RuleSection.filtering rfl (by decide) (by decide)⟩

/-- `strip()` is the identity on text with non-whitespace first and last
characters. -/
theorem pyStrip_eq_self (s : List Char)
    (h1 : ∀ c, s.head? = some c → isPySpace c = false)
    (h2 : ∀ c, s.reverse.head? = some c → isPySpace c = false) :
    pyStrip s = s := by
  unfold pyStrip
  have hd1 : s.dropWhile isPySpace = s := by
    cases s with
    | nil => rfl
    | cons c t =>
      rw [List.dropWhile_cons, h1 c rfl]
      simp
  rw [hd1]
  have hd2 : s.reverse.dropWhile isPySpace = s.reverse := by
    cases hrev : s.reverse with
    | nil => rfl
    | cons c t =>
      rw [List.dropWhile_cons, h2 c (by rw [hrev]; rfl)]
      simp
  rw [hd2, List.reverse_reverse]

/-- The dnsmasq admission rules for port 67 are left unchanged by
`strip()`. -/
theorem dnsmasqRule_strip_67 (dev proto : List Char) :
    pyStrip (dnsmasqAcceptRule dev proto ("67".toList))
      = dnsmasqAcceptRule dev proto ("67".toList) := by
  apply pyStrip_eq_self
  · intro c hc
    rw [show (dnsmasqAcceptRule dev proto ("67".toList)).head? = some 'p' from rfl]
      at hc
    injection hc with hc
    rw [← hc]
    rfl
  · intro c hc
    have h7 : (dnsmasqAcceptRule dev proto ("67".toList)).reverse.head? = some '7' := by
      simp only [dnsmasqAcceptRule, List.reverse_append]
      rfl
    rw [h7] at hc
    injection hc with hc
    rw [← hc]
    rfl

/-- The dnsmasq admission rules for port 53 are left unchanged by
`strip()`. -/
theorem dnsmasqRule_strip_53 (dev proto : List Char) :
    pyStrip (dnsmasqAcceptRule dev proto ("53".toList))
      = dnsmasqAcceptRule dev proto ("53".toList) := by
  apply pyStrip_eq_self
  · intro c hc
    rw [show (dnsmasqAcceptRule dev proto ("53".toList)).head? = some 'p' from rfl]
      at hc
    injection hc with hc
    rw [← hc]
    rfl
  · intro c hc
    have h3 : (dnsmasqAcceptRule dev proto ("53".toList)).reverse.head? = some '3' := by
      simp only [dnsmasqAcceptRule, List.reverse_append]
      rfl
    rw [h3] at hc
    injection hc with hc
    rw [← hc]
    rfl

/-- Every dnsmasq admission rule classifies into the Filtering section: its
first space-delimited token is `pass`. -/
theorem dnsmasqRule_getRuleSection (dev proto port : List Char) :
    getRuleSection (dnsmasqAcceptRule dev proto port)
      = Except.ok (some RuleSection.filtering) := rfl

/-- `add_rule` accepts a dnsmasq admission rule into the Filtering
section. -/
theorem add_dnsmasq_rule_ex (fm : FirewallManager) (dev proto port : List Char)
    (hstrip : pyStrip (dnsmasqAcceptRule dev proto port)
      = dnsmasqAcceptRule dev proto port) :
    ∃ fm', fm.add_rule (dnsmasqAcceptRule dev proto port) = Except.ok fm' := by
  have hsec : getRuleSection (pyStrip (dnsmasqAcceptRule dev proto port))
      = Except.ok (some RuleSection.filtering) := by
    rw [hstrip]
    exact dnsmasqRule_getRuleSection dev proto port
  exact ⟨_, add_rule_eq_filtering fm _ hsec⟩

/-- The run of `_add_dnsmasq_accept_rules(dev)` with a succeeding `pfctl`
commit: no exception, the four admission rules present afterwards, and the
store flushed. -/
theorem dnsmasq_accept_run_ok (fm : FirewallManager) (dev : List Char)
    (hdef : fm.apply_deferred = false) :
    (runOps fm (dnsmasqAcceptOps dev true)).raised = false ∧
    (runOps fm (dnsmasqAcceptOps dev true)).state.is_dirty = false ∧
    dnsmasqAcceptRule dev ("udp".toList) ("67".toList)
      ∈ (runOps fm (dnsmasqAcceptOps dev true)).state.filtering ∧
    dnsmasqAcceptRule dev ("tcp".toList) ("67".toList)
      ∈ (runOps fm (dnsmasqAcceptOps dev true)).state.filtering ∧
    dnsmasqAcceptRule dev ("udp".toList) ("53".toList)
      ∈ (runOps fm (dnsmasqAcceptOps dev true)).state.filtering ∧
    dnsmasqAcceptRule dev ("tcp".toList) ("53".toList)
      ∈ (runOps fm (dnsmasqAcceptOps dev true)).state.filtering := by
  have hs1 := dnsmasqRule_strip_67 dev ("udp".toList)
  have hs2 := dnsmasqRule_strip_67 dev ("tcp".toList)
  have hs3 := dnsmasqRule_strip_53 dev ("udp".toList)
  have hs4 := dnsmasqRule_strip_53 dev ("tcp".toList)
  obtain ⟨fm1, h1⟩ := add_dnsmasq_rule_ex fm dev ("udp".toList) ("67".toList) hs1
  obtain ⟨fm2, h2⟩ := add_dnsmasq_rule_ex fm1 dev ("tcp".toList) ("67".toList) hs2
  obtain ⟨fm3, h3⟩ := add_dnsmasq_rule_ex fm2 dev ("udp".toList) ("53".toList) hs3
  obtain ⟨fm4, h4⟩ := add_dnsmasq_rule_ex fm3 dev ("tcp".toList) ("53".toList) hs4
  have hrun : runOps fm (dnsmasqAcceptOps dev true)
      = runOps fm4 [FwOp.applyOp true] := by
    unfold dnsmasqAcceptOps
    rw [runOps_cons_add_ok fm _ fm1 _ h1, runOps_cons_add_ok fm1 _ fm2 _ h2,
      runOps_cons_add_ok fm2 _ fm3 _ h3, runOps_cons_add_ok fm3 _ fm4 _ h4]
  have sec1 : getRuleSection (pyStrip (dnsmasqAcceptRule dev ("udp".toList)
      ("67".toList))) = Except.ok (some RuleSection.filtering) := by
    rw [hs1]
    exact dnsmasqRule_getRuleSection dev _ _
  have sec2 : getRuleSection (pyStrip (dnsmasqAcceptRule dev ("tcp".toList)
      ("67".toList))) = Except.ok (some RuleSection.filtering) := by
    rw [hs2]
    exact dnsmasqRule_getRuleSection dev _ _
  have sec3 : getRuleSection (pyStrip (dnsmasqAcceptRule dev ("udp".toList)
      ("53".toList))) = Except.ok (some RuleSection.filtering) := by
    rw [hs3]
    exact dnsmasqRule_getRuleSection dev _ _
  have sec4 : getRuleSection (pyStrip (dnsmasqAcceptRule dev ("tcp".toList)
      ("53".toList))) = Except.ok (some RuleSection.filtering) := by
    rw [hs4]
    exact dnsmasqRule_getRuleSection dev _ _
  have hm1 : dnsmasqAcceptRule dev ("udp".toList) ("67".toList)
      ∈ sectionRules fm4 RuleSection.filtering := by
    refine add_rule_mem_mono fm3 _ fm4 h4 _ _ ?_
    refine add_rule_mem_mono fm2 _ fm3 h3 _ _ ?_
    refine add_rule_mem_mono fm1 _ fm2 h2 _ _ ?_
    have := add_rule_sec_mem fm _ fm1 RuleSection.filtering h1 sec1
    rw [hs1] at this
    exact this
  have hm2 : dnsmasqAcceptRule dev ("tcp".toList) ("67".toList)
      ∈ sectionRules fm4 RuleSection.filtering := by
    refine add_rule_mem_mono fm3 _ fm4 h4 _ _ ?_
    refine add_rule_mem_mono fm2 _ fm3 h3 _ _ ?_
    have := add_rule_sec_mem fm1 _ fm2 RuleSection.filtering h2 sec2
    rw [hs2] at this
    exact this
  have hm3 : dnsmasqAcceptRule dev ("udp".toList) ("53".toList)
      ∈ sectionRules fm4 RuleSection.filtering := by
    refine add_rule_mem_mono fm3 _ fm4 h4 _ _ ?_
    have := add_rule_sec_mem fm2 _ fm3 RuleSection.filtering h3 sec3
    rw [hs3] at this
    exact this
  have hm4 : dnsmasqAcceptRule dev ("tcp".toList) ("53".toList)
      ∈ sectionRules fm4 RuleSection.filtering := by
    have := add_rule_sec_mem fm3 _ fm4 RuleSection.filtering h4 sec4
    rw [hs4] at this
    exact this
  have hd4 : fm4.apply_deferred = false :=
    ((add_rule_deferred fm3 _ fm4 h4).trans
      ((add_rule_deferred fm2 _ fm3 h3).trans
        ((add_rule_deferred fm1 _ fm2 h2).trans
          ((add_rule_deferred fm _ fm1 h1).trans hdef))))
  have hr : (fm4.apply true).raised = false := by
    cases hdy : fm4.is_dirty <;>
      simp [FirewallManager.apply, FirewallManager.applyCommit,
        FirewallManager.dirty, hd4, hdy]
  have hdirty : (fm4.apply true).state.is_dirty = false := by
    cases hdy : fm4.is_dirty <;>
      simp [FirewallManager.apply, FirewallManager.applyCommit,
        FirewallManager.dirty, hd4, hdy]
  have hfinal : runOps fm4 [FwOp.applyOp true]
      = { state := (fm4.apply true).state,
          commits := (fm4.apply true).commits ++ [], raised := false } := by
    simp only [runOps, runOp, hr]
    rfl
  obtain ⟨_, e2⟩ := apply_rules_unchanged fm4 true
  have hraised : (runOps fm (dnsmasqAcceptOps dev true)).raised = false := by
    rw [hrun, hfinal]
  have hstate : (runOps fm (dnsmasqAcceptOps dev true)).state
      = (fm4.apply true).state := by
    rw [hrun, hfinal]
  refine ⟨hraised, ?_, ?_, ?_, ?_, ?_⟩
  · rw [hstate]
    exact hdirty
  · rw [hstate, e2]
    exact hm1
  · rw [hstate, e2]
    exact hm2
  · rw [hstate, e2]
    exact hm3
  · rw [hstate, e2]
    exact hm4

/-- Claim C8 counterexample.  With a Running daemon and a succeeding reload
signal, a failing `pfctl` commit inside `_add_dnsmasq_accept_rules` raises
inside the same `try` block as the HUP, so `restart_dhcp` falls through and
spawns a new daemon — the claim's "no new daemon process is spawned" fails
even though the reload signal itself succeeded. -/
theorem restart_dhcp_spawn_after_hup_cex :
    (restart_dhcp ⟨some 5, true, true, true, false⟩ ("fxb0".toList)
      firewall_manager).spawned = true := by
  rfl

/-- Claim C8 (amended).  With the pid file naming a live pid whose cmdline
matches (state Running) and deferral off: when both the reload signal and
the `pfctl` commit triggered by the admission rules succeed, exactly one HUP
is issued to that pid, no new daemon is spawned, the call does not raise,
the four port-67/53 admission rules are in the Filtering section afterwards
and the store is flushed; when the reload command fails, `restart_dhcp`
falls through and spawns a new daemon. -/
theorem restart_dhcp_running_reload (env : DhcpEnv) (dev : List Char)
    (fm : FirewallManager) (p : Nat)
    (hpid : env.pid = some p) (hp : p ≠ 0) (hcmd : env.cmdlineOk = true)
    (hdef : fm.apply_deferred = false) :
    (env.hupOk = true → env.commitOk = true →
      (restart_dhcp env dev fm).hups = [p] ∧
      (restart_dhcp env dev fm).spawned = false ∧
      (restart_dhcp env dev fm).raised = false ∧
      (restart_dhcp env dev fm).fm.is_dirty = false ∧
      dnsmasqAcceptRule dev ("udp".toList) ("67".toList)
        ∈ (restart_dhcp env dev fm).fm.filtering ∧
      dnsmasqAcceptRule dev ("tcp".toList) ("67".toList)
        ∈ (restart_dhcp env dev fm).fm.filtering ∧
      dnsmasqAcceptRule dev ("udp".toList) ("53".toList)
        ∈ (restart_dhcp env dev fm).fm.filtering ∧
      dnsmasqAcceptRule dev ("tcp".toList) ("53".toList)
        ∈ (restart_dhcp env dev fm).fm.filtering) ∧
    (env.hupOk = false → (restart_dhcp env dev fm).spawned = true) := by
  constructor
  · intro hhup hck
    obtain ⟨hr, hdirty, hm1, hm2, hm3, hm4⟩ := dnsmasq_accept_run_ok fm dev hdef
    have heq : restart_dhcp env dev fm
        = { fm := (runOps fm (dnsmasqAcceptOps dev true)).state, hups := [p],
            spawned := false,
            commits := (runOps fm (dnsmasqAcceptOps dev true)).commits,
            raised := false } := by
      simp [restart_dhcp, hpid, hp, hcmd, hhup, hck, hr]
    rw [heq]
    exact ⟨rfl, rfl, rfl, hdirty, hm1, hm2, hm3, hm4⟩
  · intro hhup
    have heq : restart_dhcp env dev fm = restartSpawnPath env dev fm [p] [] := by
      simp [restart_dhcp, hpid, hp, hcmd, hhup]
    rw [heq]
    unfold restartSpawnPath
    split <;> rfl

/-- Witness for `restart_dhcp_running_reload`: a Running daemon at pid 7 on
device `fxb0`, with all external commands succeeding. -/
theorem restart_dhcp_running_reload_witness :
    ((⟨some 7, true, true, true, true⟩ : DhcpEnv).hupOk = true →
      (⟨some 7, true, true, true, true⟩ : DhcpEnv).commitOk = true →
      (restart_dhcp ⟨some 7, true, true, true, true⟩ ("fxb0".toList)
        firewall_manager).hups = [7] ∧
      (restart_dhcp ⟨some 7, true, true, true, true⟩ ("fxb0".toList)
        firewall_manager).spawned = false ∧
      (restart_dhcp ⟨some 7, true, true, true, true⟩ ("fxb0".toList)
        firewall_manager).raised = false ∧
      (restart_dhcp ⟨some 7, true, true, true, true⟩ ("fxb0".toList)
        firewall_manager).fm.is_dirty = false ∧
      dnsmasqAcceptRule ("fxb0".toList) ("udp".toList) ("67".toList)
        ∈ (restart_dhcp ⟨some 7, true, true, true, true⟩ ("fxb0".toList)
            firewall_manager).fm.filtering ∧
      dnsmasqAcceptRule ("fxb0".toList) ("tcp".toList) ("67".toList)
        ∈ (restart_dhcp ⟨some 7, true, true, true, true⟩ ("fxb0".toList)
            firewall_manager).fm.filtering ∧
      dnsmasqAcceptRule ("fxb0".toList) ("udp".toList) ("53".toList)
        ∈ (restart_dhcp ⟨some 7, true, true, true, true⟩ ("fxb0".toList)
            firewall_manager).fm.filtering ∧
      dnsmasqAcceptRule ("fxb0".toList) ("tcp".toList) ("53".toList)
        ∈ (restart_dhcp ⟨some 7, true, true, true, true⟩ ("fxb0".toList)
            firewall_manager).fm.filtering) ∧
    ((⟨some 7, true, true, true, true⟩ : DhcpEnv).hupOk = false →
      (restart_dhcp ⟨some 7, true, true, true, true⟩ ("fxb0".toList)
        firewall_manager).spawned = true) :=
  restart_dhcp_running_reload ⟨some 7, true, true, true, true⟩ ("fxb0".toList)
    firewall_manager 7 rfl (by decide) rfl rfl

/-- `setMacL` is idempotent. -/
theorem setMacL_idem (e : List (List Char × List Char)) (b m : List Char) :
    setMacL (setMacL e b m) b m = setMacL e b m := by
  induction e with
  | nil => rfl
  | cons p t ih =>
    by_cases hp : p.1 = b <;> simp [setMacL, hp] <;>
      simpa [setMacL] using ih

/-- `setMacL` for one device does not change lookups of another device. -/
theorem find?_setMacL_ne (e : List (List Char × List Char)) (b m d : List Char)
    (hdb : ¬ d = b) :
    (setMacL e b m).find? (fun p => p.1 = d) = e.find? (fun p => p.1 = d) := by
  induction e with
  | nil => rfl
  | cons p t ih =>
    rw [show setMacL (p :: t) b m
      = (if p.1 = b then (p.1, m) else p) :: setMacL t b m from by
        simp [setMacL]]
    by_cases hp : p.1 = b
    · have hpd : ¬ p.1 = d := fun e2 => hdb (by rw [← e2]; exact hp)
      rw [if_pos hp, List.find?_cons, List.find?_cons,
        show decide ((p.1, m).1 = d) = false by simpa using hpd]
      exact ih
    · rw [if_neg hp, List.find?_cons, List.find?_cons]
      by_cases hpd : p.1 = d
      · rw [show decide (p.1 = d) = true by simpa using hpd]
      · rw [show decide (p.1 = d) = false by simpa using hpd]
        exact ih

/-- `getMac` only looks at the `ethers` field. -/
theorem getMac_ethers (os os' : OSState) (d : List Char)
    (h : os.ethers = os'.ethers) : getMac os d = getMac os' d := by
  unfold getMac
  rw [h]

/-- What the route re-add fold does: every field but `routes` is untouched,
and every route of the result is either an original route or one inserted
with the interface chosen by `resolveIface` from a state with the same
address table. -/
theorem readdRoute_fold (rs : List Route) (os : OSState) (cs : List Cmd) :
    (rs.foldl readdRoute (os, cs)).1.devices = os.devices ∧
    (rs.foldl readdRoute (os, cs)).1.members = os.members ∧
    (rs.foldl readdRoute (os, cs)).1.ethers = os.ethers ∧
    (rs.foldl readdRoute (os, cs)).1.upDevs = os.upDevs ∧
    (rs.foldl readdRoute (os, cs)).1.addrs = os.addrs ∧
    ∀ r' ∈ (rs.foldl readdRoute (os, cs)).1.routes,
      r' ∈ os.routes ∨
      ∃ os' dst gw, os'.addrs = os.addrs ∧
        r' = { dst := dst, gw := gw, flags := ['U', 'G', 'S'],
               iface := resolveIface os' dst gw } := by
  induction rs generalizing os cs with
  | nil => exact ⟨rfl, rfl, rfl, rfl, rfl, fun r' h => Or.inl h⟩
  | cons r rest ih =>
    rw [List.foldl_cons]
    rw [show readdRoute (os, cs) r
      = ({ os with routes := os.routes ++
            [{ dst := r.dst, gw := r.gw, flags := ['U', 'G', 'S'],
               iface := resolveIface os r.dst r.gw }] },
         cs ++ [Cmd.routeAdd r.dst r.gw]) from rfl]
    obtain ⟨e1, e2, e3, e4, e5, hr⟩ := ih
      { os with routes := os.routes ++
          [{ dst := r.dst, gw := r.gw, flags := ['U', 'G', 'S'],
             iface := resolveIface os r.dst r.gw }] }
      (cs ++ [Cmd.routeAdd r.dst r.gw])
    refine ⟨e1, e2, e3, e4, e5, ?_⟩
    intro r' h
    rcases hr r' h with hin | ⟨os', dst, gw, ha, he⟩
    · rcases List.mem_append.1 hin with h1 | h1
      · exact Or.inl h1
      · rw [List.mem_singleton] at h1
        exact Or.inr ⟨os, r.dst, r.gw, rfl, h1⟩
    · exact Or.inr ⟨os', dst, gw, ha, he⟩

/-- `markUp` makes the device up. -/
theorem markUp_mem (os : OSState) (d : List Char) : d ∈ (markUp os d).upDevs := by
  unfold markUp
  split_ifs with h
  · exact h
  · simp

/-- `markUp` keeps previously-up devices up. -/
theorem markUp_mono (os : OSState) (d x : List Char) (h : x ∈ os.upDevs) :
    x ∈ (markUp os d).upDevs := by
  unfold markUp
  split_ifs with h2
  · exact h
  · exact List.mem_append_left _ h

/-- `markUp` on an already-up device is the identity. -/
theorem markUp_noop (os : OSState) (d : List Char) (h : d ∈ os.upDevs) :
    markUp os d = os := by
  unfold markUp
  rw [if_pos h]

/-- The creation stage records the bridge device. -/
theorem createBridgeStage_mem (os : OSState) (b : List Char) :
    b ∈ (createBridgeStage os b).1.devices := by
  unfold createBridgeStage
  split_ifs with h
  · exact h
  · simp [markUp]

/-- The creation stage touches only `devices` and `upDevs`. -/
theorem createBridgeStage_fields (os : OSState) (b : List Char) :
    (createBridgeStage os b).1.members = os.members ∧
    (createBridgeStage os b).1.ethers = os.ethers ∧
    (createBridgeStage os b).1.addrs = os.addrs ∧
    (createBridgeStage os b).1.routes = os.routes := by
  unfold createBridgeStage
  split_ifs <;> exact ⟨rfl, rfl, rfl, rfl⟩

/-- The creation stage is a silent no-op when the bridge exists. -/
theorem createBridgeStage_noop (os : OSState) (b : List Char)
    (h : b ∈ os.devices) : createBridgeStage os b = (os, []) := by
  unfold createBridgeStage
  rw [if_pos h]

/-- The member stage records the membership. -/
theorem addMemberStage_mem (os : OSState) (b i : List Char) :
    (b, i) ∈ (addMemberStage os b i).members := by
  unfold addMemberStage
  split_ifs with h
  · exact h
  · simp

/-- The member stage touches only `members`. -/
theorem addMemberStage_fields (os : OSState) (b i : List Char) :
    (addMemberStage os b i).devices = os.devices ∧
    (addMemberStage os b i).ethers = os.ethers ∧
    (addMemberStage os b i).upDevs = os.upDevs ∧
    (addMemberStage os b i).addrs = os.addrs ∧
    (addMemberStage os b i).routes = os.routes := by
  unfold addMemberStage
  split_ifs <;> exact ⟨rfl, rfl, rfl, rfl, rfl⟩

/-- The member stage is a no-op when the interface is already a member. -/
theorem addMemberStage_noop (os : OSState) (b i : List Char)
    (h : (b, i) ∈ os.members) : addMemberStage os b i = os := by
  unfold addMemberStage
  rw [if_pos h]

/-- The ether stage is a no-op when the bridge's MAC already equals the
interface's. -/
theorem setEtherStage_noop (os : OSState) (b i : List Char)
    (h : setMacL os.ethers b (getMac os i) = os.ethers) :
    setEtherStage os b i = os := by
  unfold setEtherStage
  rw [h]

/-- After route deletion, no route references the interface with a gateway
flag. -/
theorem routeDeleteStage_prop (os : OSState) (i : List Char) :
    ∀ r ∈ (routeDeleteStage os i).routes, routeMatches i r = false := by
  intro r hr
  unfold routeDeleteStage at hr
  have := List.of_mem_filter hr
  simpa using this

/-- Route deletion is a no-op when no route matches. -/
theorem routeDeleteStage_noop (os : OSState) (i : List Char)
    (h : ∀ r ∈ os.routes, routeMatches i r = false) :
    routeDeleteStage os i = os := by
  unfold routeDeleteStage
  rw [List.filter_eq_self.2 (fun a ha => by rw [h a ha]; rfl)]

/-- After the address move, the interface holds no IPv4 address line
(provided the bridge is a distinct device). -/
theorem moveAddrsStage_prop (os : OSState) (b i : List Char) (hbi : ¬ b = i) :
    ∀ p ∈ (moveAddrsStage os b i).addrs, (p.1 = i && inetLine p.2) = false := by
  intro p hp
  unfold moveAddrsStage at hp
  rcases List.mem_append.1 hp with h1 | h1
  · have h2 := List.of_mem_filter h1
    simp only [Bool.not_eq_eq_eq_not, Bool.not_true] at h2
    exact h2
  · rcases List.mem_map.1 h1 with ⟨a, _, he⟩
    rw [← he]
    simp [hbi]

/-- The address move touches only `addrs`. -/
theorem moveAddrsStage_fields (os : OSState) (b i : List Char) :
    (moveAddrsStage os b i).devices = os.devices ∧
    (moveAddrsStage os b i).members = os.members ∧
    (moveAddrsStage os b i).ethers = os.ethers ∧
    (moveAddrsStage os b i).upDevs = os.upDevs ∧
    (moveAddrsStage os b i).routes = os.routes :=
  ⟨rfl, rfl, rfl, rfl, rfl⟩

/-- The address move is a no-op when the interface holds no IPv4 line. -/
theorem moveAddrsStage_noop (os : OSState) (b i : List Char)
    (h : ∀ p ∈ os.addrs, (p.1 = i && inetLine p.2) = false) :
    moveAddrsStage os b i = os := by
  have e1 : os.addrs.filter (fun p => !(p.1 = i && inetLine p.2)) = os.addrs :=
    List.filter_eq_self.2 (fun a ha => by rw [h a ha]; rfl)
  have e2 : os.addrs.filter (fun p => p.1 = i && inetLine p.2) = [] :=
    List.filter_eq_nil.2 (fun a ha => by rw [h a ha]; exact Bool.false_ne_true)
  unfold moveAddrsStage
  rw [e1, e2]
  simp


/-- The kernel never binds a fresh route to an interface holding no IPv4
address line. -/
theorem resolveIface_ne (os : OSState) (dst gw iface : List Char)
    (hif : ¬ iface = [])
    (h : ∀ a, (iface, a) ∈ os.addrs → inetLine a = false) :
    ¬ resolveIface os dst gw = iface := by
  unfold resolveIface
  cases hf : os.addrs.find? (fun p => inetLine p.2) with
  | none =>
    intro e
    exact hif e.symm
  | some p =>
    intro e
    have e' : p.1 = iface := e
    have hp : inetLine p.2 = true := by
      have h2 := List.find?_some hf
      simpa using h2
    have hpm := List.mem_of_find?_eq_some hf
    have hmm : (iface, p.2) ∈ os.addrs := by
      rw [← e']
      exact hpm
    rw [h p.2 hmm] at hp
    exact absurd hp Bool.false_ne_true

/-- `ensure_bridge` on a state it has already fully configured changes
nothing and issues only the three idempotent commands (`addm`, `ether`,
`up`). -/
theorem ensure_bridge_noop (os : OSState) (fm : FirewallManager)
    (bridge iface : List Char) (hif : ¬ iface = [])
    (hdev : bridge ∈ os.devices)
    (haddm : addmError os bridge iface = false)
    (hmem : (bridge, iface) ∈ os.members)
    (heth : setMacL os.ethers bridge (getMac os iface) = os.ethers)
    (hup : iface ∈ os.upDevs)
    (hroutes : ∀ r ∈ os.routes, routeMatches iface r = false)
    (haddrs : ∀ p ∈ os.addrs, (p.1 = iface && inetLine p.2) = false) :
    ensure_bridge os fm bridge iface
      = { os := os, fm := ensure_gateway_rules fm bridge,
          cmds := [Cmd.addMember bridge iface,
                   Cmd.setEther bridge (getMac os iface), Cmd.ifUp iface],
          raised := false } := by
  have h1 := createBridgeStage_noop os bridge hdev
  have h2 := addMemberStage_noop os bridge iface hmem
  have h3 := setEtherStage_noop os bridge iface heth
  have h4 := markUp_noop os iface hup
  have h5 : os.routes.filter (routeMatches iface) = [] :=
    List.filter_eq_nil.2 (fun a ha => by rw [hroutes a ha]; exact Bool.false_ne_true)
  have h6 := routeDeleteStage_noop os iface hroutes
  have h7 : os.addrs.filter (fun p => p.1 = iface && inetLine p.2) = [] :=
    List.filter_eq_nil.2 (fun a ha => by rw [haddrs a ha]; exact Bool.false_ne_true)
  have h8 := moveAddrsStage_noop os bridge iface haddrs
  simp only [ensure_bridge, h1, h2, h3, h4, h5, h6, h7, h8, hif, haddm, if_false,
    List.map_nil, List.flatMap_nil, List.foldl_nil, List.nil_append,
    List.append_nil]
  rfl

/-- The OS state returned by a non-raising `ensure_bridge` call (interface
given), explicitly: the fold of route re-adds over the moved/deleted
state. -/
theorem ensure_bridge_os (os0 : OSState) (fm0 : FirewallManager)
    (bridge iface : List Char) (hif : ¬ iface = [])
    (haddm : addmError (createBridgeStage os0 bridge).1 bridge iface = false) :
    (ensure_bridge os0 fm0 bridge iface).os
      = (((markUp (setEtherStage (addMemberStage (createBridgeStage os0 bridge).1
            bridge iface) bridge iface) iface).routes.filter
              (routeMatches iface)).foldl readdRoute
          (moveAddrsStage (routeDeleteStage (markUp (setEtherStage (addMemberStage
            (createBridgeStage os0 bridge).1 bridge iface) bridge iface) iface)
            iface) bridge iface, [])).1 := by
  simp [ensure_bridge, hif, haddm]

/-- After one non-raising `ensure_bridge` call, the resulting state
satisfies everything a second identical call checks for. -/
theorem ensure_bridge_post (os0 : OSState) (fm0 : FirewallManager)
    (bridge iface : List Char) (hif : ¬ iface = [])
    (haddm : addmError (createBridgeStage os0 bridge).1 bridge iface = false) :
    bridge ∈ (ensure_bridge os0 fm0 bridge iface).os.devices ∧
    iface ∈ (ensure_bridge os0 fm0 bridge iface).os.devices ∧
    (bridge, iface) ∈ (ensure_bridge os0 fm0 bridge iface).os.members ∧
    setMacL (ensure_bridge os0 fm0 bridge iface).os.ethers bridge
        (getMac (ensure_bridge os0 fm0 bridge iface).os iface)
      = (ensure_bridge os0 fm0 bridge iface).os.ethers ∧
    iface ∈ (ensure_bridge os0 fm0 bridge iface).os.upDevs ∧
    (∀ r ∈ (ensure_bridge os0 fm0 bridge iface).os.routes,
      routeMatches iface r = false) ∧
    (∀ p ∈ (ensure_bridge os0 fm0 bridge iface).os.addrs,
      (p.1 = iface && inetLine p.2) = false) := by
  have hcond : ¬ iface = bridge ∧ iface ∈ (createBridgeStage os0 bridge).1.devices := by
    have h2 := haddm
    simp [addmError] at h2
    exact h2
  obtain ⟨hbi, hifdev⟩ := hcond
  rw [ensure_bridge_os os0 fm0 bridge iface hif haddm]
  obtain ⟨f1, f2, f3, f4, f5, fr⟩ := readdRoute_fold
    ((markUp (setEtherStage (addMemberStage (createBridgeStage os0 bridge).1
        bridge iface) bridge iface) iface).routes.filter (routeMatches iface))
    (moveAddrsStage (routeDeleteStage (markUp (setEtherStage (addMemberStage
      (createBridgeStage os0 bridge).1 bridge iface) bridge iface) iface)
      iface) bridge iface) []
  have haddr6 : ∀ p ∈ (moveAddrsStage (routeDeleteStage (markUp (setEtherStage
      (addMemberStage (createBridgeStage os0 bridge).1 bridge iface) bridge iface)
      iface) iface) bridge iface).addrs,
      (p.1 = iface && inetLine p.2) = false :=
    moveAddrsStage_prop _ bridge iface (fun e => hbi e.symm)
  refine ⟨?_, ?_, ?_, ?_, ?_, ?_, ?_⟩
  · rw [f1]
    show bridge ∈ (addMemberStage (createBridgeStage os0 bridge).1
      bridge iface).devices
    rw [(addMemberStage_fields _ bridge iface).1]
    exact createBridgeStage_mem os0 bridge
  · rw [f1]
    show iface ∈ (addMemberStage (createBridgeStage os0 bridge).1
      bridge iface).devices
    rw [(addMemberStage_fields _ bridge iface).1]
    exact hifdev
  · rw [f2]
    show (bridge, iface) ∈ (addMemberStage (createBridgeStage os0 bridge).1
      bridge iface).members
    exact addMemberStage_mem _ bridge iface
  · have hre : (((markUp (setEtherStage (addMemberStage (createBridgeStage os0
        bridge).1 bridge iface) bridge iface) iface).routes.filter
          (routeMatches iface)).foldl readdRoute
        (moveAddrsStage (routeDeleteStage (markUp (setEtherStage (addMemberStage
          (createBridgeStage os0 bridge).1 bridge iface) bridge iface) iface)
          iface) bridge iface, [])).1.ethers
        = setMacL (addMemberStage (createBridgeStage os0 bridge).1
            bridge iface).ethers bridge
            (getMac (addMemberStage (createBridgeStage os0 bridge).1
              bridge iface) iface) :=
      f3.trans rfl
    have hgm : getMac (((markUp (setEtherStage (addMemberStage (createBridgeStage
        os0 bridge).1 bridge iface) bridge iface) iface).routes.filter
          (routeMatches iface)).foldl readdRoute
        (moveAddrsStage (routeDeleteStage (markUp (setEtherStage (addMemberStage
          (createBridgeStage os0 bridge).1 bridge iface) bridge iface) iface)
          iface) bridge iface, [])).1 iface
        = getMac (addMemberStage (createBridgeStage os0 bridge).1
            bridge iface) iface := by
      unfold getMac
      rw [hre, find?_setMacL_ne _ bridge _ iface hbi]
    rw [hgm, hre]
    exact setMacL_idem _ bridge _
  · rw [f4]
    show iface ∈ (markUp (setEtherStage (addMemberStage (createBridgeStage os0
      bridge).1 bridge iface) bridge iface) iface).upDevs
    exact markUp_mem _ iface
  · intro r hr
    rcases fr r hr with hin | ⟨os', dst, gw, ha, he⟩
    · exact routeDeleteStage_prop _ iface r hin
    · have hifa : ∀ a, (iface, a) ∈ os'.addrs → inetLine a = false := by
        intro a hmem'
        rw [ha] at hmem'
        have h2 := haddr6 (iface, a) hmem'
        simpa using h2
      have hni := resolveIface_ne os' dst gw iface hif hifa
      rw [he]
      unfold routeMatches
      simp [hni]
  · rw [f5]
    exact haddr6

/-- Claim C9.  Calling `ensure_bridge` twice with identical inputs leaves
the OS state and the firewall store after the second call equal to the
state after the first, and the second call issues no destructive command
(no route delete, no address delete, no destroy) — including the cases
where the `addm` of the interface fails (a self-add or a nonexistent
interface) and lines 905-907 abort the call. -/
theorem ensure_bridge_idempotent (os0 : OSState) (fm0 : FirewallManager)
    (bridge iface : List Char) :
    (ensure_bridge (ensure_bridge os0 fm0 bridge iface).os
       (ensure_bridge os0 fm0 bridge iface).fm bridge iface).os
      = (ensure_bridge os0 fm0 bridge iface).os ∧
    (ensure_bridge (ensure_bridge os0 fm0 bridge iface).os
       (ensure_bridge os0 fm0 bridge iface).fm bridge iface).fm
      = (ensure_bridge os0 fm0 bridge iface).fm ∧
    ∀ c ∈ (ensure_bridge (ensure_bridge os0 fm0 bridge iface).os
       (ensure_bridge os0 fm0 bridge iface).fm bridge iface).cmds,
      c.destructive = false := by
  by_cases hif : iface = []
  · subst hif
    have hdev : bridge ∈ (createBridgeStage os0 bridge).1.devices :=
      createBridgeStage_mem os0 bridge
    have h2 : ensure_bridge (ensure_bridge os0 fm0 bridge []).os
        (ensure_bridge os0 fm0 bridge []).fm bridge []
        = { os := (ensure_bridge os0 fm0 bridge []).os,
            fm := ensure_gateway_rules (ensure_bridge os0 fm0 bridge []).fm bridge,
            cmds := [], raised := false } := by
      simp [ensure_bridge, createBridgeStage_noop _ _ hdev]
    rw [h2]
    refine ⟨rfl, rfl, ?_⟩
    intro c hc
    simp at hc
  · by_cases haddm : addmError (createBridgeStage os0 bridge).1 bridge iface = true
    · have h1 : ensure_bridge os0 fm0 bridge iface
          = { os := (createBridgeStage os0 bridge).1, fm := fm0,
              cmds := (createBridgeStage os0 bridge).2 ++
                [Cmd.addMember bridge iface],
              raised := true } := by
        simp [ensure_bridge, hif, haddm]
      have hdev : bridge ∈ (createBridgeStage os0 bridge).1.devices :=
        createBridgeStage_mem os0 bridge
      have hc2 : createBridgeStage (createBridgeStage os0 bridge).1 bridge
          = ((createBridgeStage os0 bridge).1, []) :=
        createBridgeStage_noop _ _ hdev
      have h2 : ensure_bridge (ensure_bridge os0 fm0 bridge iface).os
          (ensure_bridge os0 fm0 bridge iface).fm bridge iface
          = { os := (createBridgeStage os0 bridge).1, fm := fm0,
              cmds := [Cmd.addMember bridge iface], raised := true } := by
        rw [h1]
        simp [ensure_bridge, hif, hc2, haddm]
      rw [h2, h1]
      refine ⟨rfl, rfl, ?_⟩
      intro c hc
      simp at hc
      rw [hc]
      rfl
    · have haddm' : addmError (createBridgeStage os0 bridge).1 bridge iface
          = false := by
        cases h : addmError (createBridgeStage os0 bridge).1 bridge iface
        · rfl
        · exact absurd h haddm
      obtain ⟨hdev, hifdev, hmem, heth, hup, hroutes, haddrs⟩ :=
        ensure_bridge_post os0 fm0 bridge iface hif haddm'
      have hbi : ¬ iface = bridge := by
        have h3 := haddm'
        simp [addmError] at h3
        exact h3.1
      have haddm2 : addmError (ensure_bridge os0 fm0 bridge iface).os bridge iface
          = false := by
        simp [addmError, hbi, hifdev]
      have h2 := ensure_bridge_noop (ensure_bridge os0 fm0 bridge iface).os
        (ensure_bridge os0 fm0 bridge iface).fm bridge iface hif hdev haddm2 hmem
        heth hup hroutes haddrs
      rw [h2]
      refine ⟨rfl, rfl, ?_⟩
      intro c hc
      simp at hc
      rcases hc with rfl | rfl | rfl <;> rfl
